import Mathlib

/-!
Verification of the Fibonacci-Friend analytical engine.

Shallow embedding of `src/lib/fibonacci-logic.ts` and
`src/lib/backtest-logic.ts`.  JavaScript numbers are idealized as exact
rationals (ℚ); `parseFloat(x.toFixed(2))` is modelled as decimal half-up
rounding `round2`.  The JavaScript sentinels `-Infinity` / `Infinity` used
as initial fold states are modelled with `Option` (a `none` state is
beaten by every finite value, exactly as every finite number beats the
infinite sentinel).  Thrown exceptions are modelled with `Except String`.
-/

namespace FibFriend

/-- `ThemeStatus` from `ThemeConfig.ts`: the three traffic-light states.
`success` = favorable / likely buy, `warning` = caution / wait,
`danger` = unfavorable / likely sell. -/
inductive ThemeStatus where
  | success
  | warning
  | danger
deriving DecidableEq, Inhabited

/-- `HistoricalPrice` interface: one daily OHLCV bar.  (`open` is a Lean
keyword, so the field is called `openPrice`.) -/
structure HistoricalPrice where
  date : String
  openPrice : ℚ
  high : ℚ
  low : ℚ
  close : ℚ
  volume : ℚ
deriving DecidableEq, Inhabited

/-- `TrendDirection`: `"uptrend" | "downtrend"`. -/
inductive TrendDirection where
  | uptrend
  | downtrend
deriving DecidableEq, Inhabited

/-- One swing point `{price, date}`. -/
structure SwingPt where
  price : ℚ
  date : String
deriving DecidableEq, Inhabited

/-- `SwingPoints` interface: the swing-high / swing-low pair. -/
structure SwingPoints where
  swingHigh : SwingPt
  swingLow : SwingPt
deriving DecidableEq, Inhabited

/-- `parseFloat(x.toFixed(2))`: round to 2 decimals, half up. -/
def round2 (x : ℚ) : ℚ := (⌊x * 100 + 1 / 2⌋ : ℤ) / 100

/-- `parseFloat(x.toFixed(1))`: round to 1 decimal, half up. -/
def round1 (x : ℚ) : ℚ := (⌊x * 10 + 1 / 2⌋ : ℤ) / 10

/-- One step of the global-mode scan in `detectSwingPoints`: the loop body
`for (const bar of prices) { if (bar.high > swingHigh.price) ...; if (bar.low < swingLow.price) ... }`.
The state is the pair (swingHigh, swingLow); `none` models the initial
`{price: -Infinity}` / `{price: Infinity}` records, which every finite
bar value beats. -/
def swingStep (st : Option SwingPt × Option SwingPt) (bar : HistoricalPrice) :
    Option SwingPt × Option SwingPt :=
  (match st.1 with
   | none => some ⟨bar.high, bar.date⟩
   | some h => if bar.high > h.price then some ⟨bar.high, bar.date⟩ else some h,
   match st.2 with
   | none => some ⟨bar.low, bar.date⟩
   | some l => if bar.low < l.price then some ⟨bar.low, bar.date⟩ else some l)

/-- `prices.slice(i - lookback, i + lookback + 1)` for `i ≥ lookback`:
the closed window of bars at indices `[i - lookback, i + lookback]`. -/
def rollWindow (prices : List HistoricalPrice) (lookback i : ℕ) :
    List HistoricalPrice :=
  (prices.drop (i - lookback)).take (2 * lookback + 1)

/-- Body of the rolling-window loop in `detectSwingPointsRolling` for one
index `i`, updating the (swingHigh, swingLow) pair.  `none` again models
the `-Infinity` / `Infinity` initial records. -/
def rollStep (prices : List HistoricalPrice) (lookback : ℕ)
    (st : Option SwingPt × Option SwingPt) (i : ℕ) :
    Option SwingPt × Option SwingPt :=
  let bar := prices.getD i default
  let w := rollWindow prices lookback i
  (if (w.all fun b => decide (bar.high ≥ b.high)) &&
      (st.1.elim true fun h => decide (bar.high > h.price)) then
     some ⟨bar.high, bar.date⟩
   else st.1,
   if (w.all fun b => decide (bar.low ≤ b.low)) &&
      (st.2.elim true fun l => decide (bar.low < l.price)) then
     some ⟨bar.low, bar.date⟩
   else st.2)

/-- `detectSwingPointsRolling(prices, lookback)`.  The loop runs `i` from
`lookback` to `prices.length - lookback` (exclusive); the fallbacks use
`Array.prototype.reduce` with no initial value, which throws on an empty
array — hence the `Option` result, `none` exactly on empty input. -/
def detectSwingPointsRolling (prices : List HistoricalPrice) (lookback : ℕ) :
    Option SwingPoints :=
  let idxs := List.range' lookback (prices.length - 2 * lookback)
  let st := idxs.foldl (rollStep prices lookback) (none, none)
  match prices with
  | [] => none
  | p :: ps =>
    let sh := match st.1 with
      | some h => h
      | none =>
        -- prices.reduce((a, b) => (b.high > a.high ? b : a))
        let best := ps.foldl (fun a b => if b.high > a.high then b else a) p
        ⟨best.high, best.date⟩
    let sl := match st.2 with
      | some l => l
      | none =>
        -- prices.reduce((a, b) => (b.low < a.low ? b : a))
        let best := ps.foldl (fun a b => if b.low < a.low then b else a) p
        ⟨best.low, best.date⟩
    some ⟨sh, sl⟩

/-- `detectSwingPoints(prices, lookback?)`: throws on empty input, then
either dispatches to the rolling-window algorithm (when `lookback` is
given) or scans the whole series for the absolute max high / min low.
The two `.error "unreachable"` branches correspond to states the
JavaScript cannot reach on a nonempty array (proved below). -/
def detectSwingPoints (prices : List HistoricalPrice)
    (lookback : Option ℕ) : Except String SwingPoints :=
  if prices.length = 0 then
    .error "Price data is empty — cannot detect swings."
  else
    match lookback with
    | some l =>
      match detectSwingPointsRolling prices l with
      | some s => .ok s
      | none => .error "unreachable: rolling detection on nonempty input"
    | none =>
      match prices.foldl swingStep (none, none) with
      | (some sh, some sl) => .ok ⟨sh, sl⟩
      | _ => .error "unreachable: scan of nonempty input"

/-- `detectTrend(swing)`: uptrend iff the low came strictly before the
high (JavaScript string comparison on the ISO dates). -/
def detectTrend (swing : SwingPoints) : TrendDirection :=
  if swing.swingLow.date < swing.swingHigh.date then .uptrend else .downtrend

/-- `FibLevel` interface. -/
structure FibLevel where
  ratio : ℚ
  label : String
  friendlyName : String
  price : ℚ
  isGoldenZone : Bool
  trafficLight : ThemeStatus
deriving DecidableEq, Inhabited

/-- The fixed `FIB_RATIOS` table: (ratio, label, friendlyName, trafficLight). -/
def FIB_RATIOS : List (ℚ × String × String × ThemeStatus) :=
  [(0.236, "23.6%", "Shallow Pullback", .success),
   (0.382, "38.2%", "Moderate Pullback", .success),
   (0.5, "50.0%", "Halfway Point", .warning),
   (0.618, "61.8%", "The Sweet Spot", .warning),
   (0.786, "78.6%", "Deep Pullback", .danger)]

/-- `calculateFibLevels(high, low, trend)`. -/
def calculateFibLevels (high low : ℚ) (trend : TrendDirection) :
    List FibLevel :=
  let diff := high - low
  FIB_RATIOS.map fun rs =>
    { ratio := rs.1
      label := rs.2.1
      friendlyName := rs.2.2.1
      price := round2 (if trend = .uptrend then high - diff * rs.1
                       else low + diff * rs.1)
      isGoldenZone := decide (rs.1 = (0.618 : ℚ))
      trafficLight := rs.2.2.2 }

/-- `determineSignal(currentPrice, levels, trend)`.  The source reads
`levels[0]` and asserts non-null on `levels.find((l) => l.isGoldenZone)`;
both are modelled with `getD`/`default` (the lookups are proved total on
`calculateFibLevels` output below). -/
def determineSignal (currentPrice : ℚ) (levels : List FibLevel)
    (trend : TrendDirection) : ThemeStatus × String :=
  let shallow := levels.getD 0 default
  let golden := (levels.find? fun l => l.isGoldenZone).getD default
  match trend with
  | .uptrend =>
    if currentPrice ≥ shallow.price then
      (.success,
       "Price is holding above the shallow pullback — momentum is historically strong here.")
    else if currentPrice ≥ golden.price then
      (.warning,
       "Price is near the Sweet Spot (61.8 %). Historically, this is a make-or-break level — wait for confirmation.")
    else
      (.danger,
       "Price has dropped past the Sweet Spot — the pullback is deep and momentum is likely fading.")
  | .downtrend =>
    if currentPrice ≤ shallow.price then
      (.danger,
       "Price is still near The Floor with weak bounce energy — the downtrend is likely continuing.")
    else if currentPrice ≤ golden.price then
      (.warning,
       "Price is bouncing toward the Sweet Spot. Historically, sellers often step back in here — wait and watch.")
    else
      (.success,
       "Price has bounced strongly past the Sweet Spot — momentum is shifting and a reversal is likely forming.")

/-- `getTrendNarrative(trend, high, low)`.  Locale date formatting
(`friendlyDate`) and `toFixed(2)` price display are presentation-only;
dates are kept as the raw ISO strings and prices rendered with the
rational `toString`; contractions in the prose are spelled out. -/
def getTrendNarrative (trend : TrendDirection) (high low : SwingPt) :
    String :=
  let peakPrice := "$" ++ toString (round2 high.price)
  let floorPrice := "$" ++ toString (round2 low.price)
  match trend with
  | .uptrend =>
    "The stock is in a Growth Era. It hit The Floor at " ++ floorPrice ++
    " on " ++ low.date ++ " and has been climbing since, reaching The Peak at " ++
    peakPrice ++ " on " ++ high.date ++
    ". We are now looking for where it might catch its breath (pull back) before the next push."
  | .downtrend =>
    "The stock is in a Cooling Off phase. It hit The Peak at " ++ peakPrice ++
    " on " ++ high.date ++ " and has been sliding since, dropping to The Floor at " ++
    floorPrice ++ " on " ++ low.date ++
    ". We are watching for where it might find its footing and bounce."

/-- `FibLevels` interface: the full analysis result. -/
structure FibLevels where
  ticker : String
  trend : TrendDirection
  trendFriendly : String
  high : SwingPt
  low : SwingPt
  range : ℚ
  levels : List FibLevel
  currentPrice : ℚ
  signal : ThemeStatus
  signalReason : String
  narrative : String
deriving DecidableEq, Inhabited

/-- `analyzeTicker(ticker, prices, currentPrice)`: the full pipeline.
Propagates the empty-input exception from `detectSwingPoints`. -/
def analyzeTicker (ticker : String) (prices : List HistoricalPrice)
    (currentPrice : ℚ) : Except String FibLevels :=
  match detectSwingPoints prices none with
  | .error e => .error e
  | .ok swing =>
    let trend := detectTrend swing
    let levels := calculateFibLevels swing.swingHigh.price swing.swingLow.price trend
    let sr := determineSignal currentPrice levels trend
    let narrative := getTrendNarrative trend swing.swingHigh swing.swingLow
    .ok { ticker := ticker.toUpper
          trend := trend
          trendFriendly := if trend = .uptrend then "Growth Era" else "Cooling Off"
          high := swing.swingHigh
          low := swing.swingLow
          range := round2 (swing.swingHigh.price - swing.swingLow.price)
          levels := levels
          currentPrice := currentPrice
          signal := sr.1
          signalReason := sr.2
          narrative := narrative }

/-! ### Backtest engine (`backtest-logic.ts`) -/

/-- Touch outcome: `"success" | "fail"`. -/
inductive TouchOutcome where
  | success
  | fail
deriving DecidableEq, Inhabited

/-- `GoldenTouch` interface.  The extra `index` field records the loop
index `i` at which the touch was logged (the source keeps only
`prices[i].date`); it is carried so that bar-gap invariants can be
stated. -/
structure GoldenTouch where
  index : ℕ
  date : String
  touchPrice : ℚ
  goldenLevelPrice : ℚ
  trend : TrendDirection
  priceAfter30 : ℚ
  percentChange : ℚ
  outcome : TouchOutcome
deriving DecidableEq, Inhabited

/-- `BacktestResult` interface. -/
structure BacktestResult where
  ticker : String
  totalBars : ℕ
  touches : List GoldenTouch
  successes : ℕ
  failures : ℕ
  winRate : ℚ
  summary : String
deriving DecidableEq, Inhabited

/-- `SWING_WINDOW = 120`. -/
def SWING_WINDOW : ℕ := 120

/-- `SWING_LOOKBACK = 10`. -/
def SWING_LOOKBACK : ℕ := 10

/-- `TOUCH_TOLERANCE = 0.015`. -/
def TOUCH_TOLERANCE : ℚ := 0.015

/-- `OUTCOME_HORIZON = 30`. -/
def OUTCOME_HORIZON : ℕ := 30

/-- `COOLDOWN_BARS = 10`. -/
def COOLDOWN_BARS : ℕ := 10

/-- One iteration of the `backtestGoldenZone` loop at index `i`.  The
state is `(lastTouchIndex, touches)`; `none` models the initial
`lastTouchIndex = -Infinity`, for which the cooldown test
`i - lastTouchIndex < COOLDOWN_BARS` is always false.  The exception a
nested `detectSwingPoints` call could throw is propagated through
`Except`. -/
def backtestStep (prices : List HistoricalPrice)
    (st : Except String (Option ℕ × List GoldenTouch)) (i : ℕ) :
    Except String (Option ℕ × List GoldenTouch) :=
  match st with
  | .error e => .error e
  | .ok (lastTouchIndex, touches) =>
    -- Cooldown: skip if we just logged a touch
    if lastTouchIndex.elim false fun l => decide (i - l < COOLDOWN_BARS) then st
    else
      -- Build Fib levels from the trailing window prices.slice(i - SWING_WINDOW, i)
      let window := (prices.drop (i - SWING_WINDOW)).take SWING_WINDOW
      match detectSwingPoints window (some SWING_LOOKBACK) with
      | .error e => .error e
      | .ok swing =>
        let trend := detectTrend swing
        let levels := calculateFibLevels swing.swingHigh.price swing.swingLow.price trend
        match levels.find? fun l => l.isGoldenZone with
        | none => st   -- if (!goldenLevel) continue
        | some goldenLevel =>
          let bar := prices.getD i default
          let range := swing.swingHigh.price - swing.swingLow.price
          if range ≤ 0 then st
          else
            let distance := |bar.close - goldenLevel.price|
            if distance > range * TOUCH_TOLERANCE then st
            else
              let futureBar := prices.getD (i + OUTCOME_HORIZON) default
              let pctChange := (futureBar.close - bar.close) / bar.close * 100
              let outcome : TouchOutcome :=
                if trend = .uptrend then
                  if pctChange > 0 then .success else .fail
                else
                  if pctChange < 0 then .success else .fail
              .ok (some i,
                   touches ++ [{ index := i
                                 date := bar.date
                                 touchPrice := bar.close
                                 goldenLevelPrice := goldenLevel.price
                                 trend := trend
                                 priceAfter30 := futureBar.close
                                 percentChange := round2 pctChange
                                 outcome := outcome }])

/-- `backtestGoldenZone(ticker, prices)`: iterate `i` from `SWING_WINDOW`
to `prices.length - OUTCOME_HORIZON` (exclusive), then aggregate.  The
numeric interpolation in the JavaScript summary string is idealized with
the rational `toString`, and contractions are spelled out. -/
def backtestGoldenZone (ticker : String) (prices : List HistoricalPrice) :
    Except String BacktestResult :=
  let idxs := List.range' SWING_WINDOW
    (prices.length - OUTCOME_HORIZON - SWING_WINDOW)
  match idxs.foldl (backtestStep prices) (.ok (none, [])) with
  | .error e => .error e
  | .ok (_, touches) =>
    let total := touches.length
    let successes := (touches.filter fun t => decide (t.outcome = .success)).length
    let failures := total - successes
    let winRate : ℚ :=
      if total > 0 then round1 ((successes : ℚ) / (total : ℚ) * 100) else 0
    let plural := if failures = 1 then "" else "s"
    let summary :=
      if total > 0 then
        s!"In the last 5 years, the Golden Zone acted like a trampoline {successes} times out of {total} ({winRate}% win rate). It did not hold {failures} time{plural}."
      else
        s!"No Golden Zone touches were detected in the last 5 years of {ticker.toUpper} data."
    .ok { ticker := ticker.toUpper
          totalBars := prices.length
          touches := touches
          successes := successes
          failures := failures
          winRate := winRate
          summary := summary }

/-! ### Statement-side definitions -/

/-- Left fold keeping the strictly better element (generic shape of all
the argmax/argmin scans in the source: a new element replaces the
current best only when strictly better, so the first of equals wins). -/
def bestFrom {α : Type} (better : α → α → Bool) : α → List α → α
  | a, [] => a
  | a, x :: xs => bestFrom better (if better x a then x else a) xs

/-- The swing point stored for a bar on the high side. -/
def projHigh (b : HistoricalPrice) : SwingPt := ⟨b.high, b.date⟩

/-- The swing point stored for a bar on the low side. -/
def projLow (b : HistoricalPrice) : SwingPt := ⟨b.low, b.date⟩

/-- The bar at index `i` (total lookup, as in the embedding). -/
def barAt (prices : List HistoricalPrice) (i : ℕ) : HistoricalPrice :=
  prices.getD i default

/-- Spec wording for a rolling-mode candidate swing high: `i` is an
interior index (at least `L` bars on each side) and its `high` is the
maximum of the closed index window `[i - L, i + L]`. -/
def IsCandidateHigh (prices : List HistoricalPrice) (L i : ℕ) : Prop :=
  L ≤ i ∧ i + L < prices.length ∧
    ∀ j, i - L ≤ j → j ≤ i + L → (barAt prices j).high ≤ (barAt prices i).high

/-- Spec wording for a rolling-mode candidate swing low, mirrored. -/
def IsCandidateLow (prices : List HistoricalPrice) (L i : ℕ) : Prop :=
  L ≤ i ∧ i + L < prices.length ∧
    ∀ j, i - L ≤ j → j ≤ i + L → (barAt prices i).low ≤ (barAt prices j).low

/-- Spec wording for the global-mode swing high: some decomposition
`prices = u ++ b :: v` where `b`'s high beats everything before it
strictly (first occurrence wins on ties) and everything after it
weakly — i.e. `b` is the first bar attaining the maximum high. -/
def IsFirstMaxHigh (prices : List HistoricalPrice) (s : SwingPt) : Prop :=
  ∃ u b v, prices = u ++ b :: v ∧ s = projHigh b ∧
    (∀ y ∈ u, y.high < b.high) ∧ ∀ y ∈ v, y.high ≤ b.high

/-- Spec wording for the global-mode swing low, mirrored. -/
def IsFirstMinLow (prices : List HistoricalPrice) (s : SwingPt) : Prop :=
  ∃ u b v, prices = u ++ b :: v ∧ s = projLow b ∧
    (∀ y ∈ u, b.low < y.low) ∧ ∀ y ∈ v, b.low ≤ y.low

/-- A flat OHLC bar at price `p` (used for concrete test inputs). -/
def mkBar (d : String) (p : ℚ) : HistoricalPrice := ⟨d, p, p, p, p, 0⟩

/-- The spec's concrete scenario: a strictly monotonically rising
130-bar series from 100.00 (day 1) to 200.00 (day 130), with strictly
increasing dates. -/
def risingSeries : List HistoricalPrice :=
  (List.range 130).map fun j => mkBar (toString (1001 + j)) (100 + j * (100 / 129))

/-- A 140-bar series (shorter than `SWING_WINDOW + OUTCOME_HORIZON`),
strictly rising from 50. -/
def shortSeries : List HistoricalPrice :=
  (List.range 140).map fun j => mkBar (toString (2001 + j)) (50 + j)

/-- Three bars with tied extremes: the max high 5 and the min low 1 both
occur on the first two bars, so first-occurrence tie-breaking is
observable. -/
def tieBars : List HistoricalPrice :=
  [⟨"a", 2, 5, 1, 2, 0⟩, ⟨"b", 2, 5, 1, 2, 0⟩, ⟨"c", 2, 3, 2, 2, 0⟩]

/-- "Strictly higher high" — the replacement test of the high-side scans. -/
def betterHigh (x a : HistoricalPrice) : Bool := decide (x.high > a.high)

/-- "Strictly lower low" — the replacement test of the low-side scans. -/
def betterLow (x a : HistoricalPrice) : Bool := decide (x.low < a.low)

/-- The high component of one `swingStep`. -/
def stepHigh (acc : Option SwingPt) (bar : HistoricalPrice) : Option SwingPt :=
  match acc with
  | none => some (projHigh bar)
  | some h => if bar.high > h.price then some (projHigh bar) else some h

/-- The low component of one `swingStep`. -/
def stepLow (acc : Option SwingPt) (bar : HistoricalPrice) : Option SwingPt :=
  match acc with
  | none => some (projLow bar)
  | some l => if bar.low < l.price then some (projLow bar) else some l

/-- The code's rolling-mode candidate test for a swing high at index `i`:
`window.every((b) => bar.high >= b.high)`. -/
def codeCandHigh (prices : List HistoricalPrice) (L i : ℕ) : Bool :=
  (rollWindow prices L i).all fun b => decide ((barAt prices i).high ≥ b.high)

/-- The code's rolling-mode candidate test for a swing low at index `i`. -/
def codeCandLow (prices : List HistoricalPrice) (L i : ℕ) : Bool :=
  (rollWindow prices L i).all fun b => decide ((barAt prices i).low ≤ b.low)

/-- "Strictly higher high", compared through bar indices. -/
def idxBetterHigh (prices : List HistoricalPrice) (x a : ℕ) : Bool :=
  decide ((barAt prices x).high > (barAt prices a).high)

/-- "Strictly lower low", compared through bar indices. -/
def idxBetterLow (prices : List HistoricalPrice) (x a : ℕ) : Bool :=
  decide ((barAt prices x).low < (barAt prices a).low)

/-- High component of one rolling-scan step, restricted to candidate
indices (the candidate test already split off). -/
def idxStepHigh (prices : List HistoricalPrice) (acc : Option SwingPt)
    (i : ℕ) : Option SwingPt :=
  match acc with
  | none => some (projHigh (barAt prices i))
  | some h =>
    if (barAt prices i).high > h.price then some (projHigh (barAt prices i))
    else some h

/-- Low component of one rolling-scan step. -/
def idxStepLow (prices : List HistoricalPrice) (acc : Option SwingPt)
    (i : ℕ) : Option SwingPt :=
  match acc with
  | none => some (projLow (barAt prices i))
  | some l =>
    if (barAt prices i).low < l.price then some (projLow (barAt prices i))
    else some l

/-- High component of one rolling-scan step including the candidate
guard (the shape of `rollStep`'s first component). -/
def guardStepHigh (prices : List HistoricalPrice) (L : ℕ)
    (acc : Option SwingPt) (i : ℕ) : Option SwingPt :=
  if codeCandHigh prices L i then idxStepHigh prices acc i else acc

/-- Low component of one rolling-scan step including the candidate
guard. -/
def guardStepLow (prices : List HistoricalPrice) (L : ℕ)
    (acc : Option SwingPt) (i : ℕ) : Option SwingPt :=
  if codeCandLow prices L i then idxStepLow prices acc i else acc

/-- The candidate swing-high indices the rolling loop accepts, in scan
order. -/
def candsHigh (prices : List HistoricalPrice) (L : ℕ) : List ℕ :=
  (List.range' L (prices.length - 2 * L)).filter (codeCandHigh prices L)

/-- The candidate swing-low indices the rolling loop accepts, in scan
order. -/
def candsLow (prices : List HistoricalPrice) (L : ℕ) : List ℕ :=
  (List.range' L (prices.length - 2 * L)).filter (codeCandLow prices L)

/-- Invariant of the backtest loop state: recorded touches are pairwise
at least `COOLDOWN_BARS` apart (in scan order), and `lastTouchIndex`
bounds every recorded index (with `none` only in the empty state). -/
def cooldownOK (st : Except String (Option ℕ × List GoldenTouch)) : Prop :=
  match st with
  | .error _ => True
  | .ok (last, touches) =>
    (touches.Pairwise fun a b => a.index + COOLDOWN_BARS ≤ b.index) ∧
    ((last = none ∧ touches = []) ∨
      ∃ l, last = some l ∧ ∀ t ∈ touches, t.index ≤ l)

/-! ### Generic lemmas about the strict-improvement fold -/

/-- The element kept by `bestFrom` splits the list as `u ++ best :: v`
where `best` strictly beats everything before it (so the first of equal
elements wins) and nothing after it strictly beats `best`.  The two
hypotheses are transitivity facts satisfied by any strict order pulled
back along a key. -/
theorem bestFrom_characterization {α : Type} (better : α → α → Bool)
    (htrans : ∀ c b a, better c b = true → better b a = true → better c a = true)
    (hmix : ∀ b x a, better b a = true → ¬ better x a = true → better b x = true) :
    ∀ (xs : List α) (a : α),
      ∃ u v, a :: xs = u ++ bestFrom better a xs :: v ∧
        (∀ y ∈ u, better (bestFrom better a xs) y = true) ∧
        ∀ y ∈ v, ¬ better y (bestFrom better a xs) = true := by
  intro xs
  induction xs with
  | nil =>
    intro a
    exact ⟨[], [], rfl, by simp, by simp⟩
  | cons x xs ih =>
    intro a
    by_cases hxa : better x a = true
    · have hb : bestFrom better a (x :: xs) = bestFrom better x xs := by
        simp [bestFrom, hxa]
      obtain ⟨u', v', hsplit, hu, hv⟩ := ih x
      rw [hb]
      refine ⟨a :: u', v', by rw [List.cons_append, ← hsplit], ?_, hv⟩
      intro y hy
      rcases List.mem_cons.mp hy with hy | hy
      · subst hy
        rcases u' with _ | ⟨w, u''⟩
        · simp only [List.nil_append] at hsplit
          injection hsplit with h1 _
          rw [← h1]
          exact hxa
        · simp only [List.cons_append] at hsplit
          injection hsplit with h1 _
          exact htrans _ x y (hu x (h1 ▸ List.mem_cons_self w u'')) hxa
      · exact hu y hy
    · have hb : bestFrom better a (x :: xs) = bestFrom better a xs := by
        simp [bestFrom, hxa]
      obtain ⟨u', v', hsplit, hu, hv⟩ := ih a
      rw [hb]
      rcases u' with _ | ⟨w, u''⟩
      · simp only [List.nil_append] at hsplit
        injection hsplit with h1 h2
        refine ⟨[], x :: xs, by simp [← h1], by simp, ?_⟩
        intro y hy
        rcases List.mem_cons.mp hy with hy | hy
        · subst hy
          rw [← h1]
          exact hxa
        · rw [h2] at hy
          exact hv y hy
      · simp only [List.cons_append] at hsplit
        injection hsplit with h1 h2
        subst h1
        refine ⟨a :: x :: u'', v', ?_, ?_, hv⟩
        · rw [List.cons_append, List.cons_append, ← h2]
        · intro y hy
          rcases List.mem_cons.mp hy with hy | hy
          · subst hy
            exact hu y (List.mem_cons_self y u'')
          · rcases List.mem_cons.mp hy with hy | hy
            · subst hy
              exact hmix _ y a (hu a (List.mem_cons_self a u'')) hxa
            · exact hu y (List.mem_cons_of_mem a hy)

/-- A fold over a pair of independent component folds splits. -/
theorem foldl_prod {γ σ τ : Type} (f : σ → γ → σ) (g : τ → γ → τ)
    (step : σ × τ → γ → σ × τ) (hstep : ∀ p x, step p x = (f p.1 x, g p.2 x)) :
    ∀ (l : List γ) (s : σ) (t : τ),
      l.foldl step (s, t) = (l.foldl f s, l.foldl g t) := by
  intro l
  induction l with
  | nil => intro s t; rfl
  | cons x xs ih =>
    intro s t
    rw [List.foldl_cons, List.foldl_cons, List.foldl_cons, hstep]
    exact ih (f s x) (g t x)

theorem betterHigh_trans :
    ∀ c b a, betterHigh c b = true → betterHigh b a = true → betterHigh c a = true := by
  intro c b a hcb hba
  simp only [betterHigh, decide_eq_true_eq] at *
  linarith

theorem betterHigh_mix :
    ∀ b x a, betterHigh b a = true → ¬ betterHigh x a = true → betterHigh b x = true := by
  intro b x a hba hxa
  simp only [betterHigh, decide_eq_true_eq] at *
  push_neg at hxa
  linarith

theorem betterLow_trans :
    ∀ c b a, betterLow c b = true → betterLow b a = true → betterLow c a = true := by
  intro c b a hcb hba
  simp only [betterLow, decide_eq_true_eq] at *
  linarith

theorem betterLow_mix :
    ∀ b x a, betterLow b a = true → ¬ betterLow x a = true → betterLow b x = true := by
  intro b x a hba hxa
  simp only [betterLow, decide_eq_true_eq] at *
  push_neg at hxa
  linarith

/-- The high-side scan from a `some` state computes `bestFrom betterHigh`. -/
theorem foldl_stepHigh (xs : List HistoricalPrice) :
    ∀ a, xs.foldl stepHigh (some (projHigh a)) =
      some (projHigh (bestFrom betterHigh a xs)) := by
  induction xs with
  | nil => intro a; rfl
  | cons x xs ih =>
    intro a
    have hstep : stepHigh (some (projHigh a)) x =
        some (projHigh (if betterHigh x a then x else a)) := by
      by_cases h : x.high > a.high <;>
        simp [stepHigh, projHigh, betterHigh, h]
    rw [List.foldl_cons, hstep]
    by_cases h : betterHigh x a = true
    · simp only [h, if_true, bestFrom, ih]
    · simp only [h, if_false, bestFrom, ih]

/-- The low-side scan from a `some` state computes `bestFrom betterLow`. -/
theorem foldl_stepLow (xs : List HistoricalPrice) :
    ∀ a, xs.foldl stepLow (some (projLow a)) =
      some (projLow (bestFrom betterLow a xs)) := by
  induction xs with
  | nil => intro a; rfl
  | cons x xs ih =>
    intro a
    have hstep : stepLow (some (projLow a)) x =
        some (projLow (if betterLow x a then x else a)) := by
      by_cases h : x.low < a.low <;>
        simp [stepLow, projLow, betterLow, h]
    rw [List.foldl_cons, hstep]
    by_cases h : betterLow x a = true
    · simp only [h, if_true, bestFrom, ih]
    · simp only [h, if_false, bestFrom, ih]

/-- Closed form of global-mode swing detection on a nonempty series. -/
theorem detectSwingPoints_global (p : HistoricalPrice) (ps : List HistoricalPrice) :
    detectSwingPoints (p :: ps) none =
      .ok ⟨projHigh (bestFrom betterHigh p ps), projLow (bestFrom betterLow p ps)⟩ := by
  have hsplit : (p :: ps).foldl swingStep (none, none) =
      ((p :: ps).foldl stepHigh none, (p :: ps).foldl stepLow none) := by
    exact foldl_prod stepHigh stepLow swingStep
      (fun st bar => by cases st with | mk a b => cases a <;> cases b <;> rfl)
      (p :: ps) none none
  have hH : (p :: ps).foldl stepHigh none =
      some (projHigh (bestFrom betterHigh p ps)) := by
    rw [List.foldl_cons]
    exact foldl_stepHigh ps p
  have hL : (p :: ps).foldl stepLow none =
      some (projLow (bestFrom betterLow p ps)) := by
    rw [List.foldl_cons]
    exact foldl_stepLow ps p
  simp [detectSwingPoints, hsplit, hH, hL]

/-! ### Rounding lemmas -/

theorem round2_le_add (x : ℚ) : round2 x ≤ x + 1 / 200 := by
  unfold round2
  rw [div_le_iff₀ (by norm_num : (0 : ℚ) < 100)]
  calc ((⌊x * 100 + 1 / 2⌋ : ℤ) : ℚ) ≤ x * 100 + 1 / 2 := Int.floor_le _
    _ = (x + 1 / 200) * 100 := by ring

theorem sub_lt_round2 (x : ℚ) : x - 1 / 200 < round2 x := by
  unfold round2
  rw [lt_div_iff₀ (by norm_num : (0 : ℚ) < 100)]
  have h := Int.lt_floor_add_one (x * 100 + 1 / 2)
  have : x * 100 + 1 / 2 - 1 < (⌊x * 100 + 1 / 2⌋ : ℚ) := by linarith
  calc (x - 1 / 200) * 100 = x * 100 + 1 / 2 - 1 := by ring
    _ < _ := this

theorem round2_mono {x y : ℚ} (h : x ≤ y) : round2 x ≤ round2 y := by
  unfold round2
  have hf : ⌊x * 100 + 1 / 2⌋ ≤ ⌊y * 100 + 1 / 2⌋ := Int.floor_mono (by linarith)
  have hf' : ((⌊x * 100 + 1 / 2⌋ : ℤ) : ℚ) ≤ ((⌊y * 100 + 1 / 2⌋ : ℤ) : ℚ) := by
    exact_mod_cast hf
  exact (div_le_div_iff_of_pos_right (by norm_num : (0 : ℚ) < 100)).mpr hf'

/-! ### Explicit forms of the level table -/

theorem calculateFibLevels_uptrend (high low : ℚ) :
    calculateFibLevels high low .uptrend =
      [⟨0.236, "23.6%", "Shallow Pullback", round2 (high - (high - low) * 0.236), false, .success⟩,
       ⟨0.382, "38.2%", "Moderate Pullback", round2 (high - (high - low) * 0.382), false, .success⟩,
       ⟨0.5, "50.0%", "Halfway Point", round2 (high - (high - low) * 0.5), false, .warning⟩,
       ⟨0.618, "61.8%", "The Sweet Spot", round2 (high - (high - low) * 0.618), true, .warning⟩,
       ⟨0.786, "78.6%", "Deep Pullback", round2 (high - (high - low) * 0.786), false, .danger⟩] := by
  simp only [calculateFibLevels, FIB_RATIOS, List.map]
  norm_num

theorem calculateFibLevels_downtrend (high low : ℚ) :
    calculateFibLevels high low .downtrend =
      [⟨0.236, "23.6%", "Shallow Pullback", round2 (low + (high - low) * 0.236), false, .success⟩,
       ⟨0.382, "38.2%", "Moderate Pullback", round2 (low + (high - low) * 0.382), false, .success⟩,
       ⟨0.5, "50.0%", "Halfway Point", round2 (low + (high - low) * 0.5), false, .warning⟩,
       ⟨0.618, "61.8%", "The Sweet Spot", round2 (low + (high - low) * 0.618), true, .warning⟩,
       ⟨0.786, "78.6%", "Deep Pullback", round2 (low + (high - low) * 0.786), false, .danger⟩] := by
  simp only [calculateFibLevels, FIB_RATIOS, List.map, reduceCtorEq, if_false]
  norm_num

/-! ### Claim C4 -/

/-- C4: for every non-empty price series, global-mode swing detection
(`detectSwingPoints` without a lookback argument) returns `swingHigh`
equal to the first bar attaining the maximum `high` (so its price is
`max bar.high`, first occurrence winning on ties) and `swingLow` equal
to the first bar attaining the minimum `low`, mirrored. -/
theorem C4_global_swing_extrema (prices : List HistoricalPrice)
    (h : prices ≠ []) :
    ∃ s, detectSwingPoints prices none = .ok s ∧
      IsFirstMaxHigh prices s.swingHigh ∧ IsFirstMinLow prices s.swingLow ∧
      (∀ b ∈ prices, b.high ≤ s.swingHigh.price) ∧
      ∀ b ∈ prices, s.swingLow.price ≤ b.low := by
  match prices, h with
  | p :: ps, _ =>
    obtain ⟨u, v, hsplit, hu, hv⟩ :=
      bestFrom_characterization betterHigh betterHigh_trans betterHigh_mix ps p
    obtain ⟨u', v', hsplit', hu', hv'⟩ :=
      bestFrom_characterization betterLow betterLow_trans betterLow_mix ps p
    have huq : ∀ y ∈ u, y.high < (bestFrom betterHigh p ps).high := by
      intro y hy
      have := hu y hy
      simpa [betterHigh, decide_eq_true_eq] using this
    have hvq : ∀ y ∈ v, y.high ≤ (bestFrom betterHigh p ps).high := by
      intro y hy
      have := hv y hy
      simp only [betterHigh, decide_eq_true_eq] at this
      exact le_of_not_lt this
    have huq' : ∀ y ∈ u', (bestFrom betterLow p ps).low < y.low := by
      intro y hy
      have := hu' y hy
      simpa [betterLow, decide_eq_true_eq] using this
    have hvq' : ∀ y ∈ v', (bestFrom betterLow p ps).low ≤ y.low := by
      intro y hy
      have := hv' y hy
      simp only [betterLow, decide_eq_true_eq] at this
      exact le_of_not_lt this
    refine ⟨⟨projHigh (bestFrom betterHigh p ps), projLow (bestFrom betterLow p ps)⟩,
      detectSwingPoints_global p ps,
      ⟨u, bestFrom betterHigh p ps, v, hsplit, rfl, huq, hvq⟩,
      ⟨u', bestFrom betterLow p ps, v', hsplit', rfl, huq', hvq'⟩, ?_, ?_⟩
    · intro b hb
      rw [hsplit] at hb
      rcases List.mem_append.mp hb with hb | hb
      · exact le_of_lt (huq b hb)
      · rcases List.mem_cons.mp hb with hb | hb
        · rw [hb]; exact le_rfl
        · exact hvq b hb
    · intro b hb
      rw [hsplit'] at hb
      rcases List.mem_append.mp hb with hb | hb
      · exact le_of_lt (huq' b hb)
      · rcases List.mem_cons.mp hb with hb | hb
        · rw [hb]; exact le_rfl
        · exact hvq' b hb

/-- C4 witness: the theorem applied to a concrete 3-bar series with tied
extremes. -/
theorem C4_global_swing_extrema_witness :
    ∃ s, detectSwingPoints tieBars none = .ok s ∧
      IsFirstMaxHigh tieBars s.swingHigh ∧ IsFirstMinLow tieBars s.swingLow ∧
      (∀ b ∈ tieBars, b.high ≤ s.swingHigh.price) ∧
      ∀ b ∈ tieBars, s.swingLow.price ≤ b.low :=
  C4_global_swing_extrema tieBars (by decide)

/-! ### Claim C10 -/

/-- C10: `calculateFibLevels` always returns exactly five levels with the
fixed ascending ratio list `[0.236, 0.382, 0.5, 0.618, 0.786]` and
exactly one Golden Zone level (ratio 0.618); consequently the
`levels.find` lookups in `determineSignal` and `backtestGoldenZone`
always succeed, so the skip branch guarded by a missing golden level is
unreachable. -/
theorem C10_fixed_ratio_table (high low : ℚ) (trend : TrendDirection) :
    (calculateFibLevels high low trend).map (fun l => l.ratio) =
      [0.236, 0.382, 0.5, 0.618, 0.786] ∧
    ((calculateFibLevels high low trend).map (fun l => l.ratio)).Pairwise (· < ·) ∧
    (calculateFibLevels high low trend).countP (fun l => l.isGoldenZone) = 1 ∧
    ∃ g, (calculateFibLevels high low trend).find? (fun l => l.isGoldenZone) = some g ∧
      g.ratio = 0.618 ∧ g.isGoldenZone = true := by
  cases trend
  · rw [calculateFibLevels_uptrend]
    refine ⟨by norm_num, ?_, by norm_num [List.countP, List.countP.go], ?_⟩
    · simp only [List.map]
      norm_num [List.pairwise_cons]
    · exact ⟨_, by rfl, rfl, rfl⟩
  · rw [calculateFibLevels_downtrend]
    refine ⟨by norm_num, ?_, by norm_num [List.countP, List.countP.go], ?_⟩
    · simp only [List.map]
      norm_num [List.pairwise_cons]
    · exact ⟨_, by rfl, rfl, rfl⟩

/-! ### Claim C7 -/

/-- C7: every level price returned by `calculateFibLevels` is the exact
value `high - (high - low)·ratio` (uptrend) or `low + (high - low)·ratio`
(downtrend) rounded to 2 decimals half-up: the price is an integer
multiple of 1/100 and is the unique such multiple `q` with
`q - 1/200 ≤ exact < q + 1/200` (ties round up). -/
theorem C7_half_up_rounding (high low : ℚ) (trend : TrendDirection)
    (l : FibLevel) (hl : l ∈ calculateFibLevels high low trend) :
    (∃ n : ℤ, l.price = (n : ℚ) / 100) ∧
    l.price - 1 / 200 ≤ (if trend = .uptrend then high - (high - low) * l.ratio
        else low + (high - low) * l.ratio) ∧
    (if trend = .uptrend then high - (high - low) * l.ratio
        else low + (high - low) * l.ratio) < l.price + 1 / 200 := by
  obtain ⟨rs, _, rfl⟩ := List.mem_map.mp hl
  have h1 := round2_le_add (if trend = .uptrend then high - (high - low) * rs.1
      else low + (high - low) * rs.1)
  have h2 := sub_lt_round2 (if trend = .uptrend then high - (high - low) * rs.1
      else low + (high - low) * rs.1)
  refine ⟨⟨⌊(if trend = .uptrend then high - (high - low) * rs.1
      else low + (high - low) * rs.1) * 100 + 1 / 2⌋, rfl⟩, ?_, ?_⟩ <;>
    dsimp only <;> linarith

/-- C7 witness: the rounding characterization at a concrete level. -/
theorem C7_half_up_rounding_witness :
    ((calculateFibLevels 10 0 .uptrend).getD 0 default) ∈
        calculateFibLevels 10 0 .uptrend ∧
      ((∃ n : ℤ, ((calculateFibLevels 10 0 .uptrend).getD 0 default).price = (n : ℚ) / 100) ∧
      ((calculateFibLevels 10 0 .uptrend).getD 0 default).price - 1 / 200 ≤
        (10 - (10 - 0) * ((calculateFibLevels 10 0 .uptrend).getD 0 default).ratio) ∧
      (10 - (10 - 0) * ((calculateFibLevels 10 0 .uptrend).getD 0 default).ratio) <
        ((calculateFibLevels 10 0 .uptrend).getD 0 default).price + 1 / 200) := by
  have hm : (calculateFibLevels 10 0 .uptrend).getD 0 default ∈
      calculateFibLevels 10 0 .uptrend := by
    rw [calculateFibLevels_uptrend]
    simp
  refine ⟨hm, ?_⟩
  have h := C7_half_up_rounding 10 0 .uptrend
    ((calculateFibLevels 10 0 .uptrend).getD 0 default) hm
  simpa using h

/-! ### Claim C3 -/

set_option maxRecDepth 8000 in
/-- C3: on the spec's concrete 130-bar strictly rising series from
100.00 to 200.00, `analyzeTicker` reports an uptrend, a Golden Zone
(0.618) price of 138.20, a shallow (0.236) price of 176.40, and with
`currentPrice = 180.00` the favorable (`success`) signal. -/
theorem C3_rising_scenario :
    ((analyzeTicker "TEST" risingSeries 180).toOption.map fun r =>
      (r.trend, ((r.levels.find? fun l => l.isGoldenZone).getD default).price,
       (r.levels.getD 0 default).price, r.signal)) =
      some (.uptrend, 138.2, 176.4, .success) :=
  of_decide_eq_true (by with_unfolding_all rfl)

/-! ### Claim C6 -/

/-- C6 counterexample: with `high = 1.599 ≥ low = 1.591` (uptrend), the
0.236 level's rounded price is 1.60, which lies strictly above `high`
(refuting the `[low, high]` inclusion), and the 0.236 and 0.382 levels
round to the same price (refuting strict monotonicity in the ratio). -/
theorem C6_counterexample :
    (1.591 : ℚ) ≤ 1.599 ∧
    ((calculateFibLevels 1.599 1.591 .uptrend).getD 0 default).price = 1.6 ∧
    ¬ (((calculateFibLevels 1.599 1.591 .uptrend).getD 0 default).price ≤ 1.599) ∧
    ((calculateFibLevels 1.599 1.591 .uptrend).getD 1 default).price = 1.6 :=
  of_decide_eq_true (by with_unfolding_all rfl)

/-- C6 (amended): because prices are rounded to 2 decimals, each level
price lies within the rounding-widened band
`[low - 1/200, high + 1/200]`, and the five prices are weakly (not
strictly) decreasing in the ratio for an uptrend and weakly increasing
for a downtrend. -/
theorem C6_levels_bounds_weak_mono (high low : ℚ) (trend : TrendDirection)
    (h : low ≤ high) :
    (∀ l ∈ calculateFibLevels high low trend,
      low - 1 / 200 ≤ l.price ∧ l.price ≤ high + 1 / 200) ∧
    (trend = .uptrend → ∀ i j, i < j → j < 5 →
      ((calculateFibLevels high low trend).getD j default).price ≤
        ((calculateFibLevels high low trend).getD i default).price) ∧
    (trend = .downtrend → ∀ i j, i < j → j < 5 →
      ((calculateFibLevels high low trend).getD i default).price ≤
        ((calculateFibLevels high low trend).getD j default).price) := by
  have hb : ∀ r : ℚ, 0 ≤ r → r ≤ 1 →
      low - 1 / 200 ≤ round2 (high - (high - low) * r) ∧
        round2 (high - (high - low) * r) ≤ high + 1 / 200 := by
    intro r h0 h1
    have e1 : low ≤ high - (high - low) * r := by nlinarith
    have e2 : high - (high - low) * r ≤ high := by nlinarith
    have e3 := round2_le_add (high - (high - low) * r)
    have e4 := sub_lt_round2 (high - (high - low) * r)
    constructor <;> linarith
  have hb' : ∀ r : ℚ, 0 ≤ r → r ≤ 1 →
      low - 1 / 200 ≤ round2 (low + (high - low) * r) ∧
        round2 (low + (high - low) * r) ≤ high + 1 / 200 := by
    intro r h0 h1
    have e1 : low ≤ low + (high - low) * r := by nlinarith
    have e2 : low + (high - low) * r ≤ high := by nlinarith
    have e3 := round2_le_add (low + (high - low) * r)
    have e4 := sub_lt_round2 (low + (high - low) * r)
    constructor <;> linarith
  have hmono : ∀ r s : ℚ, r ≤ s →
      round2 (high - (high - low) * s) ≤ round2 (high - (high - low) * r) := by
    intro r s hrs
    apply round2_mono
    nlinarith
  have hmono' : ∀ r s : ℚ, r ≤ s →
      round2 (low + (high - low) * r) ≤ round2 (low + (high - low) * s) := by
    intro r s hrs
    apply round2_mono
    nlinarith
  cases trend
  · rw [calculateFibLevels_uptrend]
    refine ⟨?_, ?_, ?_⟩
    · intro l hl
      simp only [List.mem_cons, List.not_mem_nil, or_false] at hl
      rcases hl with rfl | rfl | rfl | rfl | rfl
      · exact hb 0.236 (by norm_num) (by norm_num)
      · exact hb 0.382 (by norm_num) (by norm_num)
      · exact hb 0.5 (by norm_num) (by norm_num)
      · exact hb 0.618 (by norm_num) (by norm_num)
      · exact hb 0.786 (by norm_num) (by norm_num)
    · intro _ i j hij hj5
      interval_cases j <;> interval_cases i <;>
        simp only [List.getD_cons_zero, List.getD_cons_succ] <;>
        apply hmono <;> norm_num
    · intro hc
      exact absurd hc (by simp)
  · rw [calculateFibLevels_downtrend]
    refine ⟨?_, ?_, ?_⟩
    · intro l hl
      simp only [List.mem_cons, List.not_mem_nil, or_false] at hl
      rcases hl with rfl | rfl | rfl | rfl | rfl
      · exact hb' 0.236 (by norm_num) (by norm_num)
      · exact hb' 0.382 (by norm_num) (by norm_num)
      · exact hb' 0.5 (by norm_num) (by norm_num)
      · exact hb' 0.618 (by norm_num) (by norm_num)
      · exact hb' 0.786 (by norm_num) (by norm_num)
    · intro hc
      exact absurd hc (by simp)
    · intro _ i j hij hj5
      interval_cases j <;> interval_cases i <;>
        simp only [List.getD_cons_zero, List.getD_cons_succ] <;>
        apply hmono' <;> norm_num

/-- C6 (amended) witness: the bands and weak monotonicity at a concrete
input where rounding actually collapses neighbouring levels. -/
theorem C6_levels_bounds_weak_mono_witness :
    (∀ l ∈ calculateFibLevels 1 0.99 .uptrend,
      (0.99 : ℚ) - 1 / 200 ≤ l.price ∧ l.price ≤ 1 + 1 / 200) ∧
    (TrendDirection.uptrend = .uptrend → ∀ i j, i < j → j < 5 →
      ((calculateFibLevels 1 0.99 .uptrend).getD j default).price ≤
        ((calculateFibLevels 1 0.99 .uptrend).getD i default).price) ∧
    (TrendDirection.uptrend = .downtrend → ∀ i j, i < j → j < 5 →
      ((calculateFibLevels 1 0.99 .uptrend).getD i default).price ≤
        ((calculateFibLevels 1 0.99 .uptrend).getD j default).price) :=
  C6_levels_bounds_weak_mono 1 0.99 .uptrend (by norm_num)

/-! ### Claim C5 -/

theorem determineSignal_fst_uptrend (cp : ℚ) (levels : List FibLevel) :
    (determineSignal cp levels .uptrend).1 =
      if cp ≥ (levels.getD 0 default).price then .success
      else if cp ≥ ((levels.find? fun l => l.isGoldenZone).getD default).price then .warning
      else .danger := by
  by_cases h1 : cp ≥ (levels.getD 0 default).price <;>
    by_cases h2 : cp ≥ ((levels.find? fun l => l.isGoldenZone).getD default).price <;>
    simp only [List.getD_eq_getElem?_getD] at h1 h2 ⊢ <;>
    simp [determineSignal, h1, h2]

theorem determineSignal_fst_downtrend (cp : ℚ) (levels : List FibLevel) :
    (determineSignal cp levels .downtrend).1 =
      if cp ≤ (levels.getD 0 default).price then .danger
      else if cp ≤ ((levels.find? fun l => l.isGoldenZone).getD default).price then .warning
      else .success := by
  by_cases h1 : cp ≤ (levels.getD 0 default).price <;>
    by_cases h2 : cp ≤ ((levels.find? fun l => l.isGoldenZone).getD default).price <;>
    simp only [List.getD_eq_getElem?_getD] at h1 h2 ⊢ <;>
    simp [determineSignal, h1, h2]

theorem find_golden_uptrend (high low : ℚ) :
    ((calculateFibLevels high low .uptrend).find? fun l => l.isGoldenZone) =
      some ⟨0.618, "61.8%", "The Sweet Spot",
        round2 (high - (high - low) * 0.618), true, .warning⟩ := by
  rw [calculateFibLevels_uptrend]
  rfl

theorem find_golden_downtrend (high low : ℚ) :
    ((calculateFibLevels high low .downtrend).find? fun l => l.isGoldenZone) =
      some ⟨0.618, "61.8%", "The Sweet Spot",
        round2 (low + (high - low) * 0.618), true, .warning⟩ := by
  rw [calculateFibLevels_downtrend]
  rfl

/-- C5: over level lists produced by `calculateFibLevels` (with
`high ≥ low`), the three branches of `determineSignal` partition the
real line of `currentPrice` values into three contiguous,
non-overlapping regions with no gaps: for an uptrend,
`cp ≥ shallow → success (favorable)`, else
`cp ≥ golden → warning (caution)`, else `danger (unfavorable)`, with
the mirrored rule for a downtrend; each signal region is exactly an
interval (the iff characterizations), and regions are convex. -/
theorem C5_signal_partition (high low : ℚ) (trend : TrendDirection)
    (h : low ≤ high) :
    let levels := calculateFibLevels high low trend
    let sig := fun cp : ℚ => (determineSignal cp levels trend).1
    let shallowP := (levels.getD 0 default).price
    let goldenP := ((levels.find? fun l => l.isGoldenZone).getD default).price
    (∀ cp, sig cp = .success ∨ sig cp = .warning ∨ sig cp = .danger) ∧
    (trend = .uptrend → ∀ cp,
      (sig cp = .success ↔ shallowP ≤ cp) ∧
      (sig cp = .warning ↔ goldenP ≤ cp ∧ cp < shallowP) ∧
      (sig cp = .danger ↔ cp < goldenP)) ∧
    (trend = .downtrend → ∀ cp,
      (sig cp = .danger ↔ cp ≤ shallowP) ∧
      (sig cp = .warning ↔ shallowP < cp ∧ cp ≤ goldenP) ∧
      (sig cp = .success ↔ goldenP < cp)) ∧
    (∀ c1 c2 c3 : ℚ, c1 ≤ c2 → c2 ≤ c3 → sig c1 = sig c3 → sig c2 = sig c1) := by
  intro levels sig shallowP goldenP
  have hd : 0 ≤ high - low := by linarith
  cases trend
  · -- uptrend
    have hfind := find_golden_uptrend high low
    have hshallow : shallowP = round2 (high - (high - low) * 0.236) := by
      simp only [shallowP, levels, calculateFibLevels_uptrend, List.getD_cons_zero]
    have hgold : goldenP = round2 (high - (high - low) * 0.618) := by
      simp only [goldenP, levels, hfind, Option.getD_some]
    have hgs : goldenP ≤ shallowP := by
      rw [hshallow, hgold]
      apply round2_mono
      nlinarith
    have hsig : ∀ cp : ℚ, sig cp =
        if cp ≥ shallowP then .success
        else if cp ≥ goldenP then .warning
        else .danger := by
      intro cp
      exact determineSignal_fst_uptrend cp levels
    refine ⟨?_, ?_, ?_, ?_⟩
    · intro cp
      rw [hsig]
      split_ifs <;> simp
    · intro _ cp
      rw [hsig cp]
      by_cases h1 : shallowP ≤ cp
      · rw [if_pos (by exact h1)]
        refine ⟨⟨fun _ => h1, fun _ => rfl⟩, ?_, ?_⟩
        · constructor
          · intro hx; exact absurd hx (by simp)
          · rintro ⟨_, hx2⟩; exact absurd h1 (not_le.mpr hx2)
        · constructor
          · intro hx; exact absurd hx (by simp)
          · intro hx; exfalso; linarith
      · by_cases h2 : goldenP ≤ cp
        · rw [if_neg (by exact h1), if_pos (by exact h2)]
          refine ⟨?_, ?_, ?_⟩
          · exact ⟨fun hx => absurd hx (by simp), fun hx => absurd hx h1⟩
          · exact ⟨fun _ => ⟨h2, not_le.mp h1⟩, fun _ => rfl⟩
          · constructor
            · intro hx; exact absurd hx (by simp)
            · intro hx; exact absurd h2 (not_le.mpr hx)
        · rw [if_neg (by exact h1), if_neg (by exact h2)]
          refine ⟨?_, ?_, ?_⟩
          · exact ⟨fun hx => absurd hx (by simp), fun hx => absurd hx h1⟩
          · constructor
            · intro hx; exact absurd hx (by simp)
            · rintro ⟨hx1, _⟩; exact absurd hx1 h2
          · exact ⟨fun _ => not_le.mp h2, fun _ => rfl⟩
    · intro hc
      exact absurd hc (by simp)
    · intro c1 c2 c3 h12 h23 heq
      rw [hsig c1, hsig c3] at heq
      rw [hsig c2, hsig c1]
      by_cases a1 : shallowP ≤ c1
      · have a2 : shallowP ≤ c2 := le_trans a1 h12
        rw [if_pos (show c2 ≥ shallowP from a2), if_pos (show c1 ≥ shallowP from a1)]
      · by_cases a3 : shallowP ≤ c3
        · rw [if_neg (show ¬ c1 ≥ shallowP from a1),
            if_pos (show c3 ≥ shallowP from a3)] at heq
          by_cases b1 : goldenP ≤ c1
          · rw [if_pos (show c1 ≥ goldenP from b1)] at heq
            exact absurd heq (by simp)
          · rw [if_neg (show ¬ c1 ≥ goldenP from b1)] at heq
            exact absurd heq (by simp)
        · have a2 : ¬ shallowP ≤ c2 := fun hx => a3 (le_trans hx h23)
          rw [if_neg (show ¬ c1 ≥ shallowP from a1),
            if_neg (show ¬ c3 ≥ shallowP from a3)] at heq
          rw [if_neg (show ¬ c2 ≥ shallowP from a2),
            if_neg (show ¬ c1 ≥ shallowP from a1)]
          by_cases b1 : goldenP ≤ c1
          · have b2 : goldenP ≤ c2 := le_trans b1 h12
            rw [if_pos (show c2 ≥ goldenP from b2), if_pos (show c1 ≥ goldenP from b1)]
          · by_cases b3 : goldenP ≤ c3
            · rw [if_neg (show ¬ c1 ≥ goldenP from b1),
                if_pos (show c3 ≥ goldenP from b3)] at heq
              exact absurd heq (by simp)
            · have b2 : ¬ goldenP ≤ c2 := fun hx => b3 (le_trans hx h23)
              rw [if_neg (show ¬ c2 ≥ goldenP from b2),
                if_neg (show ¬ c1 ≥ goldenP from b1)]
  · -- downtrend
    have hfind := find_golden_downtrend high low
    have hshallow : shallowP = round2 (low + (high - low) * 0.236) := by
      simp only [shallowP, levels, calculateFibLevels_downtrend, List.getD_cons_zero]
    have hgold : goldenP = round2 (low + (high - low) * 0.618) := by
      simp only [goldenP, levels, hfind, Option.getD_some]
    have hgs : shallowP ≤ goldenP := by
      rw [hshallow, hgold]
      apply round2_mono
      nlinarith
    have hsig : ∀ cp : ℚ, sig cp =
        if cp ≤ shallowP then .danger
        else if cp ≤ goldenP then .warning
        else .success := by
      intro cp
      exact determineSignal_fst_downtrend cp levels
    refine ⟨?_, ?_, ?_, ?_⟩
    · intro cp
      rw [hsig]
      split_ifs <;> simp
    · intro hc
      exact absurd hc (by simp)
    · intro _ cp
      rw [hsig cp]
      by_cases h1 : cp ≤ shallowP
      · rw [if_pos (by exact h1)]
        refine ⟨⟨fun _ => h1, fun _ => rfl⟩, ?_, ?_⟩
        · constructor
          · intro hx; exact absurd hx (by simp)
          · rintro ⟨hx1, _⟩; exact absurd h1 (not_le.mpr hx1)
        · constructor
          · intro hx; exact absurd hx (by simp)
          · intro hx; exfalso; linarith
      · by_cases h2 : cp ≤ goldenP
        · rw [if_neg (by exact h1), if_pos (by exact h2)]
          refine ⟨?_, ?_, ?_⟩
          · exact ⟨fun hx => absurd hx (by simp), fun hx => absurd hx h1⟩
          · exact ⟨fun _ => ⟨not_le.mp h1, h2⟩, fun _ => rfl⟩
          · constructor
            · intro hx; exact absurd hx (by simp)
            · intro hx; exact absurd h2 (not_le.mpr hx)
        · rw [if_neg (by exact h1), if_neg (by exact h2)]
          refine ⟨?_, ?_, ?_⟩
          · exact ⟨fun hx => absurd hx (by simp), fun hx => absurd hx h1⟩
          · constructor
            · intro hx; exact absurd hx (by simp)
            · rintro ⟨_, hx2⟩; exact absurd hx2 h2
          · exact ⟨fun _ => not_le.mp h2, fun _ => rfl⟩
    · intro c1 c2 c3 h12 h23 heq
      rw [hsig c1, hsig c3] at heq
      rw [hsig c2, hsig c1]
      by_cases a3 : c3 ≤ shallowP
      · have a1 : c1 ≤ shallowP := le_trans (le_trans h12 h23) a3
        have a2 : c2 ≤ shallowP := le_trans h23 a3
        rw [if_pos (show c2 ≤ shallowP from a2), if_pos (show c1 ≤ shallowP from a1)]
      · by_cases a1 : c1 ≤ shallowP
        · rw [if_pos (show c1 ≤ shallowP from a1),
            if_neg (show ¬ c3 ≤ shallowP from a3)] at heq
          by_cases b3 : c3 ≤ goldenP
          · rw [if_pos (show c3 ≤ goldenP from b3)] at heq
            exact absurd heq (by simp)
          · rw [if_neg (show ¬ c3 ≤ goldenP from b3)] at heq
            exact absurd heq (by simp)
        · have a2 : ¬ c2 ≤ shallowP := fun hx => a1 (le_trans h12 hx)
          rw [if_neg (show ¬ c1 ≤ shallowP from a1),
            if_neg (show ¬ c3 ≤ shallowP from a3)] at heq
          rw [if_neg (show ¬ c2 ≤ shallowP from a2),
            if_neg (show ¬ c1 ≤ shallowP from a1)]
          by_cases b3 : c3 ≤ goldenP
          · have b2 : c2 ≤ goldenP := le_trans h23 b3
            by_cases b1 : c1 ≤ goldenP
            · rw [if_pos (show c2 ≤ goldenP from b2), if_pos (show c1 ≤ goldenP from b1)]
            · rw [if_neg (show ¬ c1 ≤ goldenP from b1),
                if_pos (show c3 ≤ goldenP from b3)] at heq
              exact absurd heq (by simp)
          · by_cases b1 : c1 ≤ goldenP
            · rw [if_pos (show c1 ≤ goldenP from b1),
                if_neg (show ¬ c3 ≤ goldenP from b3)] at heq
              exact absurd heq (by simp)
            · have b2 : ¬ c2 ≤ goldenP := fun hx => b1 (le_trans h12 hx)
              rw [if_neg (show ¬ c2 ≤ goldenP from b2),
                if_neg (show ¬ c1 ≤ goldenP from b1)]

/-- C5 witness: the partition at a concrete uptrend level set. -/
theorem C5_signal_partition_witness :
    let levels := calculateFibLevels 10 0 .uptrend
    let sig := fun cp : ℚ => (determineSignal cp levels .uptrend).1
    let shallowP := (levels.getD 0 default).price
    let goldenP := ((levels.find? fun l => l.isGoldenZone).getD default).price
    (∀ cp, sig cp = .success ∨ sig cp = .warning ∨ sig cp = .danger) ∧
    (TrendDirection.uptrend = .uptrend → ∀ cp,
      (sig cp = .success ↔ shallowP ≤ cp) ∧
      (sig cp = .warning ↔ goldenP ≤ cp ∧ cp < shallowP) ∧
      (sig cp = .danger ↔ cp < goldenP)) ∧
    (TrendDirection.uptrend = .downtrend → ∀ cp,
      (sig cp = .danger ↔ cp ≤ shallowP) ∧
      (sig cp = .warning ↔ shallowP < cp ∧ cp ≤ goldenP) ∧
      (sig cp = .success ↔ goldenP < cp)) ∧
    (∀ c1 c2 c3 : ℚ, c1 ≤ c2 → c2 ≤ c3 → sig c1 = sig c3 → sig c2 = sig c1) :=
  C5_signal_partition 10 0 .uptrend (by norm_num)

/-! ### Claim C9 -/

/-- C9: `analyzeTicker` fails with the empty-input error exactly when the
price series has zero bars; on every non-empty series it returns an
`AnalysisResult` without raising. -/
theorem C9_analyze_empty_error (ticker : String)
    (prices : List HistoricalPrice) (currentPrice : ℚ) :
    (prices = [] →
      analyzeTicker ticker prices currentPrice =
        .error "Price data is empty — cannot detect swings.") ∧
    (prices ≠ [] →
      ∃ r, analyzeTicker ticker prices currentPrice = .ok r) := by
  constructor
  · rintro rfl
    rfl
  · intro h
    match prices, h with
    | p :: ps, _ =>
      simp only [analyzeTicker, detectSwingPoints_global p ps]
      exact ⟨_, rfl⟩

/-- C9 witness: the empty series raises and a concrete 3-bar series
returns a result. -/
theorem C9_analyze_empty_error_witness :
    analyzeTicker "a" [] 5 =
      .error "Price data is empty — cannot detect swings." ∧
    ∃ r, analyzeTicker "a" tieBars 5 = .ok r :=
  ⟨(C9_analyze_empty_error "a" [] 5).1 rfl,
   (C9_analyze_empty_error "a" tieBars 5).2 (by decide)⟩

/-! ### Backtest loop lemmas -/

/-- Rolling detection on a nonempty list always produces a result. -/
theorem detectSwingPointsRolling_cons (p : HistoricalPrice)
    (ps : List HistoricalPrice) (L : ℕ) :
    ∃ s, detectSwingPointsRolling (p :: ps) L = some s :=
  ⟨_, rfl⟩

/-- `detectSwingPoints` with a lookback never raises on nonempty input. -/
theorem detectSwingPoints_rolling_cons (p : HistoricalPrice)
    (ps : List HistoricalPrice) (L : ℕ) :
    ∃ s, detectSwingPoints (p :: ps) (some L) = .ok s := by
  obtain ⟨s, hs⟩ := detectSwingPointsRolling_cons p ps L
  refine ⟨s, ?_⟩
  simp only [detectSwingPoints, List.length_cons]
  rw [if_neg (Nat.succ_ne_zero _), hs]

/-- One backtest step preserves the cooldown invariant. -/
theorem cooldownOK_step (prices : List HistoricalPrice) (i : ℕ)
    (st : Except String (Option ℕ × List GoldenTouch))
    (h : cooldownOK st) : cooldownOK (backtestStep prices st i) := by
  cases st with
  | error e => exact trivial
  | ok p =>
    obtain ⟨last, touches⟩ := p
    obtain ⟨hpw, hlast⟩ := h
    show cooldownOK (backtestStep prices (.ok (last, touches)) i)
    unfold backtestStep
    dsimp only
    by_cases hcool : (last.elim false fun l => decide (i - l < COOLDOWN_BARS)) = true
    · rw [if_pos hcool]
      exact ⟨hpw, hlast⟩
    · rw [if_neg hcool]
      split
      · exact trivial
      · split
        · exact ⟨hpw, hlast⟩
        · split
          · exact ⟨hpw, hlast⟩
          · split
            · exact ⟨hpw, hlast⟩
            · -- a touch is recorded at index i
              have hgap : ∀ t ∈ touches, t.index + COOLDOWN_BARS ≤ i := by
                intro t ht
                rcases hlast with ⟨-, rfl⟩ | ⟨l, rfl, hle⟩
                · exact absurd ht (List.not_mem_nil t)
                · have hc : ¬ (i - l < COOLDOWN_BARS) := by
                    simpa [Option.elim] using hcool
                  have := hle t ht
                  simp only [COOLDOWN_BARS] at *
                  omega
              refine ⟨?_, Or.inr ⟨i, rfl, ?_⟩⟩
              · rw [List.pairwise_append]
                refine ⟨hpw, List.pairwise_singleton _ _, ?_⟩
                intro a ha b hb
                rw [List.mem_singleton] at hb
                subst hb
                exact hgap a ha
              · intro t ht
                rcases List.mem_append.mp ht with ht | ht
                · have := hgap t ht
                  simp only [COOLDOWN_BARS] at this
                  omega
                · rw [List.mem_singleton] at ht
                  subst ht
                  exact le_rfl

/-- The cooldown invariant holds after folding any index list. -/
theorem cooldownOK_foldl (prices : List HistoricalPrice) :
    ∀ (idxs : List ℕ) (st : Except String (Option ℕ × List GoldenTouch)),
      cooldownOK st → cooldownOK (idxs.foldl (backtestStep prices) st) := by
  intro idxs
  induction idxs with
  | nil => intro st h; exact h
  | cons i is ih =>
    intro st h
    exact ih _ (cooldownOK_step prices i st h)

/-- A backtest step on a valid index never turns an ok state into an
error (the rolling window is nonempty). -/
theorem backtestStep_ok (prices : List HistoricalPrice) (i : ℕ)
    (hi : SWING_WINDOW ≤ i) (hlen : i < prices.length - OUTCOME_HORIZON)
    (last : Option ℕ) (touches : List GoldenTouch) :
    ∃ last' touches',
      backtestStep prices (.ok (last, touches)) i = .ok (last', touches') := by
  have hwin : (prices.drop (i - SWING_WINDOW)).take SWING_WINDOW ≠ [] := by
    have h1 : i - SWING_WINDOW < prices.length := by
      simp only [SWING_WINDOW, OUTCOME_HORIZON] at *
      omega
    intro hcon
    rcases List.take_eq_nil_iff.mp hcon with h | h
    · simp [SWING_WINDOW] at h
    · rw [List.drop_eq_nil_iff] at h
      omega
  unfold backtestStep
  dsimp only
  by_cases hcool : (last.elim false fun l => decide (i - l < COOLDOWN_BARS)) = true
  · rw [if_pos hcool]
    exact ⟨last, touches, rfl⟩
  · rw [if_neg hcool]
    match hw : (prices.drop (i - SWING_WINDOW)).take SWING_WINDOW, hwin with
    | w :: ws, _ =>
      obtain ⟨s, hs⟩ := detectSwingPoints_rolling_cons w ws SWING_LOOKBACK
      rw [hs]
      dsimp only
      cases hfg : (calculateFibLevels s.swingHigh.price s.swingLow.price
          (detectTrend s)).find? fun l => l.isGoldenZone with
      | none =>
        dsimp only
        exact ⟨last, touches, rfl⟩
      | some g =>
        dsimp only
        split_ifs <;> exact ⟨_, _, rfl⟩

/-- Every index visited by the backtest loop is in bounds. -/
theorem backtest_range_bounds (prices : List HistoricalPrice) :
    ∀ i ∈ List.range' SWING_WINDOW
        (prices.length - OUTCOME_HORIZON - SWING_WINDOW),
      SWING_WINDOW ≤ i ∧ i < prices.length - OUTCOME_HORIZON := by
  intro i hi
  rw [List.mem_range'_1] at hi
  simp only [SWING_WINDOW, OUTCOME_HORIZON] at *
  omega

/-- Folding the backtest step over in-bounds indices keeps the state ok. -/
theorem backtest_foldl_ok (prices : List HistoricalPrice) :
    ∀ (idxs : List ℕ),
      (∀ i ∈ idxs, SWING_WINDOW ≤ i ∧ i < prices.length - OUTCOME_HORIZON) →
      ∀ last touches, ∃ last' touches',
        idxs.foldl (backtestStep prices) (.ok (last, touches)) =
          .ok (last', touches') := by
  intro idxs
  induction idxs with
  | nil =>
    intro _ last touches
    exact ⟨last, touches, rfl⟩
  | cons i is ih =>
    intro hb last touches
    obtain ⟨hi, hlen⟩ := hb i (List.mem_cons_self i is)
    obtain ⟨l1, t1, h1⟩ := backtestStep_ok prices i hi hlen last touches
    rw [List.foldl_cons, h1]
    exact ih (fun j hj => hb j (List.mem_cons_of_mem i hj)) l1 t1

/-! ### Claim C8 -/

set_option maxRecDepth 8000 in
/-- C8: in the touches list returned by `backtestGoldenZone`, no two
recorded touches have bar-index difference strictly less than
`COOLDOWN_BARS = 10` (in scan order, each later touch is at least 10
bars after each earlier one). -/
theorem C8_touch_cooldown (ticker : String) (prices : List HistoricalPrice)
    (r : BacktestResult) (h : backtestGoldenZone ticker prices = .ok r) :
    r.touches.Pairwise fun a b => a.index + COOLDOWN_BARS ≤ b.index := by
  obtain ⟨lF, tF, hfold⟩ :=
    backtest_foldl_ok prices _ (backtest_range_bounds prices) none []
  have hinv := cooldownOK_foldl prices
    (List.range' SWING_WINDOW (prices.length - OUTCOME_HORIZON - SWING_WINDOW))
    (.ok (none, [])) ⟨List.Pairwise.nil, Or.inl ⟨rfl, rfl⟩⟩
  rw [hfold] at hinv
  obtain ⟨hpw, -⟩ := hinv
  unfold backtestGoldenZone at h
  dsimp only at h
  rw [hfold] at h
  dsimp only at h
  injection h with h2
  rw [← h2]
  exact hpw

/-- C8 witness: the cooldown invariant at a concrete input. -/
theorem C8_touch_cooldown_witness :
    ∃ r, backtestGoldenZone "a" [] = .ok r ∧
      r.touches.Pairwise fun a b => a.index + COOLDOWN_BARS ≤ b.index := by
  cases hr : backtestGoldenZone "a" [] with
  | error e =>
    have hok : (backtestGoldenZone "a" []).toOption.isSome = true :=
      of_decide_eq_true (by with_unfolding_all rfl)
    rw [hr] at hok
    exact absurd hok (by simp [Except.toOption])
  | ok r => exact ⟨r, rfl, C8_touch_cooldown "a" [] r hr⟩

/-! ### Claim C1 -/

set_option maxRecDepth 8000 in
/-- C1 counterexample: a 140-bar series (fewer than
`SWING_WINDOW + OUTCOME_HORIZON = 150` bars) does NOT make
`backtestGoldenZone` fail — it returns a `BacktestResult` with an empty
touches list (no `InsufficientDataError` exists anywhere in the code). -/
theorem C1_counterexample :
    shortSeries.length = 140 ∧
    ((backtestGoldenZone "ABC" shortSeries).toOption.map fun r =>
      (r.touches, r.winRate, r.totalBars)) = some ([], 0, 140) :=
  of_decide_eq_true (by with_unfolding_all rfl)

set_option maxRecDepth 8000 in
/-- C1 (amended): `backtestGoldenZone` never raises: for every ticker and
price series it returns a `BacktestResult`, and whenever the series has
at most `SWING_WINDOW + OUTCOME_HORIZON = 150` bars the loop body never
runs, so the result has an empty touches list (a valid result, not an
error). -/
theorem C1_backtest_total (ticker : String) (prices : List HistoricalPrice) :
    ∃ r, backtestGoldenZone ticker prices = .ok r ∧
      (prices.length ≤ SWING_WINDOW + OUTCOME_HORIZON → r.touches = []) := by
  obtain ⟨lF, tF, hfold⟩ :=
    backtest_foldl_ok prices _ (backtest_range_bounds prices) none []
  unfold backtestGoldenZone
  dsimp only
  rw [hfold]
  dsimp only
  refine ⟨_, rfl, ?_⟩
  intro hshort
  have hc : prices.length - OUTCOME_HORIZON - SWING_WINDOW = 0 := by
    simp only [SWING_WINDOW, OUTCOME_HORIZON] at hshort ⊢
    omega
  rw [hc, show List.range' SWING_WINDOW 0 = [] from rfl,
    List.foldl_nil] at hfold
  injection hfold with hp
  show tF = []
  cases hp
  rfl

/-- C1 (amended) witness: the amended claim at the concrete short
series. -/
theorem C1_backtest_total_witness :
    ∃ r, backtestGoldenZone "xyz" shortSeries = .ok r ∧
      (shortSeries.length ≤ SWING_WINDOW + OUTCOME_HORIZON →
        r.touches = []) :=
  C1_backtest_total "xyz" shortSeries

/-! ### Claim C2: rolling-window swing detection -/

/-- One rolling step splits into the two guarded component steps. -/
theorem rollStep_eq (prices : List HistoricalPrice) (L : ℕ)
    (st : Option SwingPt × Option SwingPt) (i : ℕ) :
    rollStep prices L st i =
      (guardStepHigh prices L st.1 i, guardStepLow prices L st.2 i) := by
  obtain ⟨a, b⟩ := st
  have hH : (if (codeCandHigh prices L i) &&
        (a.elim true fun h => decide ((prices.getD i default).high > h.price)) then
        some (⟨(prices.getD i default).high, (prices.getD i default).date⟩ : SwingPt)
      else a) = guardStepHigh prices L a i := by
    cases hch : codeCandHigh prices L i
    · simp [guardStepHigh, hch]
    · cases a with
      | none => simp [guardStepHigh, hch, idxStepHigh, projHigh, barAt, Option.elim]
      | some h =>
        by_cases hgt : (prices.getD i default).high > h.price <;>
          simp [guardStepHigh, hch, idxStepHigh, projHigh, barAt, Option.elim, hgt]
  have hL : (if (codeCandLow prices L i) &&
        (b.elim true fun l => decide ((prices.getD i default).low < l.price)) then
        some (⟨(prices.getD i default).low, (prices.getD i default).date⟩ : SwingPt)
      else b) = guardStepLow prices L b i := by
    cases hcl : codeCandLow prices L i
    · simp [guardStepLow, hcl]
    · cases b with
      | none => simp [guardStepLow, hcl, idxStepLow, projLow, barAt, Option.elim]
      | some l =>
        by_cases hlt : (prices.getD i default).low < l.price <;>
          simp [guardStepLow, hcl, idxStepLow, projLow, barAt, Option.elim, hlt]
  calc rollStep prices L (a, b) i
      = (if (codeCandHigh prices L i) &&
            (a.elim true fun h => decide ((prices.getD i default).high > h.price)) then
            some (⟨(prices.getD i default).high, (prices.getD i default).date⟩ : SwingPt)
          else a,
         if (codeCandLow prices L i) &&
            (b.elim true fun l => decide ((prices.getD i default).low < l.price)) then
            some (⟨(prices.getD i default).low, (prices.getD i default).date⟩ : SwingPt)
          else b) := rfl
    _ = (guardStepHigh prices L a i, guardStepLow prices L b i) := by rw [hH, hL]

/-- Folding a guarded step equals folding the plain step over the
filtered list. -/
theorem foldl_guard_filter {σ γ : Type} (p : γ → Bool) (f : σ → γ → σ) :
    ∀ (l : List γ) (acc : σ),
      l.foldl (fun a x => if p x then f a x else a) acc =
        (l.filter p).foldl f acc := by
  intro l
  induction l with
  | nil => intro acc; rfl
  | cons x xs ih =>
    intro acc
    by_cases hp : p x = true <;>
      simp [List.filter_cons, hp, ih]

theorem idxBetterHigh_trans (prices : List HistoricalPrice) :
    ∀ c b a, idxBetterHigh prices c b = true → idxBetterHigh prices b a = true →
      idxBetterHigh prices c a = true := by
  intro c b a hcb hba
  simp only [idxBetterHigh, decide_eq_true_eq] at *
  linarith

theorem idxBetterHigh_mix (prices : List HistoricalPrice) :
    ∀ b x a, idxBetterHigh prices b a = true → ¬ idxBetterHigh prices x a = true →
      idxBetterHigh prices b x = true := by
  intro b x a hba hxa
  simp only [idxBetterHigh, decide_eq_true_eq] at *
  push_neg at hxa
  linarith

theorem idxBetterLow_trans (prices : List HistoricalPrice) :
    ∀ c b a, idxBetterLow prices c b = true → idxBetterLow prices b a = true →
      idxBetterLow prices c a = true := by
  intro c b a hcb hba
  simp only [idxBetterLow, decide_eq_true_eq] at *
  linarith

theorem idxBetterLow_mix (prices : List HistoricalPrice) :
    ∀ b x a, idxBetterLow prices b a = true → ¬ idxBetterLow prices x a = true →
      idxBetterLow prices b x = true := by
  intro b x a hba hxa
  simp only [idxBetterLow, decide_eq_true_eq] at *
  push_neg at hxa
  linarith

/-- The plain index scan from a `some` state computes `bestFrom`. -/
theorem foldl_idxStepHigh (prices : List HistoricalPrice) (xs : List ℕ) :
    ∀ c, xs.foldl (idxStepHigh prices) (some (projHigh (barAt prices c))) =
      some (projHigh (barAt prices (bestFrom (idxBetterHigh prices) c xs))) := by
  induction xs with
  | nil => intro c; rfl
  | cons x xs ih =>
    intro c
    have hstep : idxStepHigh prices (some (projHigh (barAt prices c))) x =
        some (projHigh (barAt prices (if idxBetterHigh prices x c then x else c))) := by
      by_cases hx : (barAt prices x).high > (barAt prices c).high <;>
        simp [idxStepHigh, projHigh, idxBetterHigh, hx]
    rw [List.foldl_cons, hstep]
    by_cases hx : idxBetterHigh prices x c = true
    · simp only [hx, if_true, bestFrom, ih]
    · simp only [hx, if_false, bestFrom, ih]

theorem foldl_idxStepLow (prices : List HistoricalPrice) (xs : List ℕ) :
    ∀ c, xs.foldl (idxStepLow prices) (some (projLow (barAt prices c))) =
      some (projLow (barAt prices (bestFrom (idxBetterLow prices) c xs))) := by
  induction xs with
  | nil => intro c; rfl
  | cons x xs ih =>
    intro c
    have hstep : idxStepLow prices (some (projLow (barAt prices c))) x =
        some (projLow (barAt prices (if idxBetterLow prices x c then x else c))) := by
      by_cases hx : (barAt prices x).low < (barAt prices c).low <;>
        simp [idxStepLow, projLow, idxBetterLow, hx]
    rw [List.foldl_cons, hstep]
    by_cases hx : idxBetterLow prices x c = true
    · simp only [hx, if_true, bestFrom, ih]
    · simp only [hx, if_false, bestFrom, ih]

/-- The JavaScript `reduce` fallback computes `bestFrom betterHigh`. -/
theorem foldl_reduce_high (ps : List HistoricalPrice) :
    ∀ p, ps.foldl (fun a b => if b.high > a.high then b else a) p =
      bestFrom betterHigh p ps := by
  induction ps with
  | nil => intro p; rfl
  | cons x xs ih =>
    intro p
    rw [List.foldl_cons]
    by_cases hx : x.high > p.high
    · have h1 : (if x.high > p.high then x else p) = x := if_pos hx
      have h2 : betterHigh x p = true := by
        simp [betterHigh, hx]
      rw [h1, ih, bestFrom, if_pos h2]
    · have h1 : (if x.high > p.high then x else p) = p := if_neg hx
      have h2 : ¬ betterHigh x p = true := by
        simp [betterHigh, hx]
      rw [h1, ih, bestFrom, if_neg h2]

theorem foldl_reduce_low (ps : List HistoricalPrice) :
    ∀ p, ps.foldl (fun a b => if b.low < a.low then b else a) p =
      bestFrom betterLow p ps := by
  induction ps with
  | nil => intro p; rfl
  | cons x xs ih =>
    intro p
    rw [List.foldl_cons]
    by_cases hx : x.low < p.low
    · have h1 : (if x.low < p.low then x else p) = x := if_pos hx
      have h2 : betterLow x p = true := by
        simp [betterLow, hx]
      rw [h1, ih, bestFrom, if_pos h2]
    · have h1 : (if x.low < p.low then x else p) = p := if_neg hx
      have h2 : ¬ betterLow x p = true := by
        simp [betterLow, hx]
      rw [h1, ih, bestFrom, if_neg h2]

theorem foldl_idxStepHigh_closed (prices : List HistoricalPrice) (cl : List ℕ) :
    cl.foldl (idxStepHigh prices) none =
      match cl with
      | [] => none
      | c :: cs => some (projHigh (barAt prices (bestFrom (idxBetterHigh prices) c cs))) := by
  cases cl with
  | nil => rfl
  | cons c cs =>
    rw [List.foldl_cons]
    exact foldl_idxStepHigh prices cs c

theorem foldl_idxStepLow_closed (prices : List HistoricalPrice) (cl : List ℕ) :
    cl.foldl (idxStepLow prices) none =
      match cl with
      | [] => none
      | c :: cs => some (projLow (barAt prices (bestFrom (idxBetterLow prices) c cs))) := by
  cases cl with
  | nil => rfl
  | cons c cs =>
    rw [List.foldl_cons]
    exact foldl_idxStepLow prices cs c

/-- Closed form of the rolling-window detection on a nonempty series:
each side is the first-best candidate when candidates exist, and the
global-scan extremum otherwise. -/
theorem rolling_closed_form (p : HistoricalPrice) (ps : List HistoricalPrice)
    (L : ℕ) :
    detectSwingPointsRolling (p :: ps) L = some
      ⟨(match candsHigh (p :: ps) L with
        | [] => projHigh (bestFrom betterHigh p ps)
        | c :: cs => projHigh (barAt (p :: ps) (bestFrom (idxBetterHigh (p :: ps)) c cs))),
       (match candsLow (p :: ps) L with
        | [] => projLow (bestFrom betterLow p ps)
        | c :: cs => projLow (barAt (p :: ps) (bestFrom (idxBetterLow (p :: ps)) c cs)))⟩ := by
  unfold detectSwingPointsRolling
  dsimp only
  rw [foldl_prod (guardStepHigh (p :: ps) L) (guardStepLow (p :: ps) L)
    (rollStep (p :: ps) L) (rollStep_eq (p :: ps) L)
    (List.range' L ((p :: ps).length - 2 * L)) none none]
  rw [show (List.range' L ((p :: ps).length - 2 * L)).foldl
        (guardStepHigh (p :: ps) L) none =
      (candsHigh (p :: ps) L).foldl (idxStepHigh (p :: ps)) none from
    foldl_guard_filter (codeCandHigh (p :: ps) L) (idxStepHigh (p :: ps)) _ none]
  rw [show (List.range' L ((p :: ps).length - 2 * L)).foldl
        (guardStepLow (p :: ps) L) none =
      (candsLow (p :: ps) L).foldl (idxStepLow (p :: ps)) none from
    foldl_guard_filter (codeCandLow (p :: ps) L) (idxStepLow (p :: ps)) _ none]
  rw [foldl_idxStepHigh_closed, foldl_idxStepLow_closed]
  cases hcH : candsHigh (p :: ps) L with
  | nil =>
    cases hcL : candsLow (p :: ps) L with
    | nil =>
      dsimp only
      rw [foldl_reduce_high ps p, foldl_reduce_low ps p]
      rfl
    | cons c cs =>
      dsimp only
      rw [foldl_reduce_high ps p]
      rfl
  | cons c cs =>
    cases hcL : candsLow (p :: ps) L with
    | nil =>
      dsimp only
      rw [foldl_reduce_low ps p]
      rfl
    | cons c' cs' =>
      dsimp only

theorem barAt_eq_getElem (prices : List HistoricalPrice) (j : ℕ)
    (hj : j < prices.length) : barAt prices j = prices[j] := by
  unfold barAt
  exact List.getD_eq_getElem _ _ hj

/-- Membership in the code's rolling window, for an interior index: the
window holds exactly the bars at indices `[i - L, i + L]`. -/
theorem mem_rollWindow_iff (prices : List HistoricalPrice) (L i : ℕ)
    (hL : L ≤ i) (hi : i + L < prices.length) (b : HistoricalPrice) :
    b ∈ rollWindow prices L i ↔
      ∃ j, i - L ≤ j ∧ j ≤ i + L ∧ b = barAt prices j := by
  unfold rollWindow
  rw [List.mem_iff_getElem]
  have hlen : ((prices.drop (i - L)).take (2 * L + 1)).length = 2 * L + 1 := by
    rw [List.length_take, List.length_drop]
    omega
  constructor
  · rintro ⟨k, hk, rfl⟩
    rw [hlen] at hk
    refine ⟨i - L + k, by omega, by omega, ?_⟩
    simp only [List.getElem_take, List.getElem_drop]
    rw [barAt_eq_getElem prices (i - L + k) (by omega)]
  · rintro ⟨j, hj1, hj2, rfl⟩
    have hjlen : j < prices.length := by omega
    refine ⟨j - (i - L), by rw [hlen]; omega, ?_⟩
    simp only [List.getElem_take, List.getElem_drop]
    rw [barAt_eq_getElem prices j hjlen]
    congr 1
    omega

/-- The loop's candidate test accepts exactly the spec's candidate swing
highs: interior indices whose high is the maximum of the closed window
`[i - L, i + L]`. -/
theorem mem_candsHigh_iff (prices : List HistoricalPrice) (L i : ℕ) :
    i ∈ candsHigh prices L ↔ IsCandidateHigh prices L i := by
  unfold candsHigh IsCandidateHigh
  rw [List.mem_filter, List.mem_range'_1]
  constructor
  · rintro ⟨⟨h1, h2⟩, hcand⟩
    have hub : i + L < prices.length := by omega
    refine ⟨h1, hub, ?_⟩
    intro j hj1 hj2
    simp only [codeCandHigh, List.all_eq_true, decide_eq_true_eq] at hcand
    have hjmem : barAt prices j ∈ rollWindow prices L i := by
      rw [mem_rollWindow_iff prices L i h1 hub]
      exact ⟨j, hj1, hj2, rfl⟩
    exact hcand _ hjmem
  · rintro ⟨h1, h2, hall⟩
    refine ⟨⟨h1, by omega⟩, ?_⟩
    simp only [codeCandHigh, List.all_eq_true, decide_eq_true_eq]
    intro b hb
    rw [mem_rollWindow_iff prices L i h1 h2] at hb
    obtain ⟨j, hj1, hj2, rfl⟩ := hb
    exact hall j hj1 hj2

/-- Mirrored candidate characterization for swing lows. -/
theorem mem_candsLow_iff (prices : List HistoricalPrice) (L i : ℕ) :
    i ∈ candsLow prices L ↔ IsCandidateLow prices L i := by
  unfold candsLow IsCandidateLow
  rw [List.mem_filter, List.mem_range'_1]
  constructor
  · rintro ⟨⟨h1, h2⟩, hcand⟩
    have hub : i + L < prices.length := by omega
    refine ⟨h1, hub, ?_⟩
    intro j hj1 hj2
    simp only [codeCandLow, List.all_eq_true, decide_eq_true_eq] at hcand
    have hjmem : barAt prices j ∈ rollWindow prices L i := by
      rw [mem_rollWindow_iff prices L i h1 hub]
      exact ⟨j, hj1, hj2, rfl⟩
    exact hcand _ hjmem
  · rintro ⟨h1, h2, hall⟩
    refine ⟨⟨h1, by omega⟩, ?_⟩
    simp only [codeCandLow, List.all_eq_true, decide_eq_true_eq]
    intro b hb
    rw [mem_rollWindow_iff prices L i h1 h2] at hb
    obtain ⟨j, hj1, hj2, rfl⟩ := hb
    exact hall j hj1 hj2

theorem candsHigh_sorted (prices : List HistoricalPrice) (L : ℕ) :
    (candsHigh prices L).Pairwise (· < ·) :=
  List.Pairwise.sublist (List.filter_sublist _) (List.pairwise_lt_range' _ _)

theorem candsLow_sorted (prices : List HistoricalPrice) (L : ℕ) :
    (candsLow prices L).Pairwise (· < ·) :=
  List.Pairwise.sublist (List.filter_sublist _) (List.pairwise_lt_range' _ _)

/-- The strict-improvement fold over bars yields the first bar attaining
the maximum high. -/
theorem bestFrom_isFirstMaxHigh (p : HistoricalPrice) (ps : List HistoricalPrice) :
    IsFirstMaxHigh (p :: ps) (projHigh (bestFrom betterHigh p ps)) := by
  obtain ⟨u, v, hsplit, hu, hv⟩ :=
    bestFrom_characterization betterHigh betterHigh_trans betterHigh_mix ps p
  refine ⟨u, _, v, hsplit, rfl, ?_, ?_⟩
  · intro y hy
    simpa [betterHigh, decide_eq_true_eq] using hu y hy
  · intro y hy
    have := hv y hy
    simp only [betterHigh, decide_eq_true_eq] at this
    exact le_of_not_lt this

/-- Mirrored: first bar attaining the minimum low. -/
theorem bestFrom_isFirstMinLow (p : HistoricalPrice) (ps : List HistoricalPrice) :
    IsFirstMinLow (p :: ps) (projLow (bestFrom betterLow p ps)) := by
  obtain ⟨u, v, hsplit, hu, hv⟩ :=
    bestFrom_characterization betterLow betterLow_trans betterLow_mix ps p
  refine ⟨u, _, v, hsplit, rfl, ?_, ?_⟩
  · intro y hy
    simpa [betterLow, decide_eq_true_eq] using hu y hy
  · intro y hy
    have := hv y hy
    simp only [betterLow, decide_eq_true_eq] at this
    exact le_of_not_lt this

/-- C2: rolling-window detection with lookback `L`: a bar at interior
index `i` (at least `L` bars each side) is a candidate swing high
exactly when its high is the maximum of the closed window `[i-L, i+L]`
(`IsCandidateHigh` states the spec's wording); the returned `swingHigh`
is the candidate with the largest high, first found winning ties (all
earlier candidates are strictly lower); mirrored for the swing low; and
when no interior bar qualifies, the result is the global-mode extremum
over the full input window (`IsFirstMaxHigh` / `IsFirstMinLow`, the
characterization proved of global mode in C4). -/
theorem C2_rolling_swing_spec (prices : List HistoricalPrice) (L : ℕ)
    (h : prices ≠ []) :
    ∃ s, detectSwingPointsRolling prices L = some s ∧
      ((∃ i, IsCandidateHigh prices L i) →
        ∃ i, IsCandidateHigh prices L i ∧
          s.swingHigh = projHigh (barAt prices i) ∧
          (∀ j, IsCandidateHigh prices L j →
            (barAt prices j).high ≤ (barAt prices i).high) ∧
          (∀ j, IsCandidateHigh prices L j → j < i →
            (barAt prices j).high < (barAt prices i).high)) ∧
      ((¬ ∃ i, IsCandidateHigh prices L i) →
        IsFirstMaxHigh prices s.swingHigh) ∧
      ((∃ i, IsCandidateLow prices L i) →
        ∃ i, IsCandidateLow prices L i ∧
          s.swingLow = projLow (barAt prices i) ∧
          (∀ j, IsCandidateLow prices L j →
            (barAt prices i).low ≤ (barAt prices j).low) ∧
          (∀ j, IsCandidateLow prices L j → j < i →
            (barAt prices i).low < (barAt prices j).low)) ∧
      ((¬ ∃ i, IsCandidateLow prices L i) →
        IsFirstMinLow prices s.swingLow) := by
  match prices, h with
  | p :: ps, _ =>
    refine ⟨_, rolling_closed_form p ps L, ?_, ?_, ?_, ?_⟩
    · rintro ⟨i0, hi0⟩
      have hne : candsHigh (p :: ps) L ≠ [] := by
        intro hnil
        have := (mem_candsHigh_iff (p :: ps) L i0).mpr hi0
        rw [hnil] at this
        exact absurd this (List.not_mem_nil i0)
      match hc : candsHigh (p :: ps) L, hne with
      | c :: cs, _ =>
        obtain ⟨u, v, hsplit, hu, hv⟩ :=
          bestFrom_characterization (idxBetterHigh (p :: ps))
            (idxBetterHigh_trans _) (idxBetterHigh_mix _) cs c
        have hbmem : bestFrom (idxBetterHigh (p :: ps)) c cs ∈ candsHigh (p :: ps) L := by
          rw [hc, hsplit]
          exact List.mem_append.mpr (Or.inr (List.mem_cons_self _ _))
        have hsorted : (u ++ bestFrom (idxBetterHigh (p :: ps)) c cs :: v).Pairwise (· < ·) := by
          have hs := candsHigh_sorted (p :: ps) L
          rw [hc, hsplit] at hs
          exact hs
        refine ⟨bestFrom (idxBetterHigh (p :: ps)) c cs,
          (mem_candsHigh_iff _ _ _).mp hbmem, ?_, ?_, ?_⟩
        · rfl
        · intro j hj
          have hjmem := (mem_candsHigh_iff (p :: ps) L j).mpr hj
          rw [hc, hsplit] at hjmem
          rcases List.mem_append.mp hjmem with hj' | hj'
          · have := hu j hj'
            simp only [idxBetterHigh, decide_eq_true_eq] at this
            exact le_of_lt this
          · rcases List.mem_cons.mp hj' with rfl | hj'
            · exact le_rfl
            · have := hv j hj'
              simp only [idxBetterHigh, decide_eq_true_eq] at this
              exact le_of_not_lt this
        · intro j hj hjb
          have hjmem := (mem_candsHigh_iff (p :: ps) L j).mpr hj
          rw [hc, hsplit] at hjmem
          rcases List.mem_append.mp hjmem with hj' | hj'
          · have := hu j hj'
            simpa [idxBetterHigh, decide_eq_true_eq] using this
          · rcases List.mem_cons.mp hj' with heq | hj'
            · exact absurd hjb (heq ▸ lt_irrefl _)
            · exfalso
              have hlt : bestFrom (idxBetterHigh (p :: ps)) c cs < j :=
                (List.pairwise_cons.mp (List.pairwise_append.mp hsorted).2.1).1 j hj'
              omega
    · intro hnone
      have hnil : candsHigh (p :: ps) L = [] := by
        cases hcc : candsHigh (p :: ps) L with
        | nil => rfl
        | cons c cs =>
          exact absurd ⟨c, (mem_candsHigh_iff (p :: ps) L c).mp
            (by rw [hcc]; exact List.mem_cons_self _ _)⟩ hnone
      show IsFirstMaxHigh (p :: ps) (match candsHigh (p :: ps) L with
        | [] => projHigh (bestFrom betterHigh p ps)
        | c :: cs => projHigh (barAt (p :: ps) (bestFrom (idxBetterHigh (p :: ps)) c cs)))
      rw [hnil]
      exact bestFrom_isFirstMaxHigh p ps
    · rintro ⟨i0, hi0⟩
      have hne : candsLow (p :: ps) L ≠ [] := by
        intro hnil
        have := (mem_candsLow_iff (p :: ps) L i0).mpr hi0
        rw [hnil] at this
        exact absurd this (List.not_mem_nil i0)
      match hc : candsLow (p :: ps) L, hne with
      | c :: cs, _ =>
        obtain ⟨u, v, hsplit, hu, hv⟩ :=
          bestFrom_characterization (idxBetterLow (p :: ps))
            (idxBetterLow_trans _) (idxBetterLow_mix _) cs c
        have hbmem : bestFrom (idxBetterLow (p :: ps)) c cs ∈ candsLow (p :: ps) L := by
          rw [hc, hsplit]
          exact List.mem_append.mpr (Or.inr (List.mem_cons_self _ _))
        have hsorted : (u ++ bestFrom (idxBetterLow (p :: ps)) c cs :: v).Pairwise (· < ·) := by
          have hs := candsLow_sorted (p :: ps) L
          rw [hc, hsplit] at hs
          exact hs
        refine ⟨bestFrom (idxBetterLow (p :: ps)) c cs,
          (mem_candsLow_iff _ _ _).mp hbmem, ?_, ?_, ?_⟩
        · rfl
        · intro j hj
          have hjmem := (mem_candsLow_iff (p :: ps) L j).mpr hj
          rw [hc, hsplit] at hjmem
          rcases List.mem_append.mp hjmem with hj' | hj'
          · have := hu j hj'
            simp only [idxBetterLow, decide_eq_true_eq] at this
            exact le_of_lt this
          · rcases List.mem_cons.mp hj' with rfl | hj'
            · exact le_rfl
            · have := hv j hj'
              simp only [idxBetterLow, decide_eq_true_eq] at this
              exact le_of_not_lt this
        · intro j hj hjb
          have hjmem := (mem_candsLow_iff (p :: ps) L j).mpr hj
          rw [hc, hsplit] at hjmem
          rcases List.mem_append.mp hjmem with hj' | hj'
          · have := hu j hj'
            simpa [idxBetterLow, decide_eq_true_eq] using this
          · rcases List.mem_cons.mp hj' with heq | hj'
            · exact absurd hjb (heq ▸ lt_irrefl _)
            · exfalso
              have hlt : bestFrom (idxBetterLow (p :: ps)) c cs < j :=
                (List.pairwise_cons.mp (List.pairwise_append.mp hsorted).2.1).1 j hj'
              omega
    · intro hnone
      have hnil : candsLow (p :: ps) L = [] := by
        cases hcc : candsLow (p :: ps) L with
        | nil => rfl
        | cons c cs =>
          exact absurd ⟨c, (mem_candsLow_iff (p :: ps) L c).mp
            (by rw [hcc]; exact List.mem_cons_self _ _)⟩ hnone
      show IsFirstMinLow (p :: ps) (match candsLow (p :: ps) L with
        | [] => projLow (bestFrom betterLow p ps)
        | c :: cs => projLow (barAt (p :: ps) (bestFrom (idxBetterLow (p :: ps)) c cs)))
      rw [hnil]
      exact bestFrom_isFirstMinLow p ps

/-- C2 witness: the characterization at a concrete 3-bar series with
lookback 1. -/
theorem C2_rolling_swing_spec_witness :
    ∃ s, detectSwingPointsRolling tieBars 1 = some s ∧
      ((∃ i, IsCandidateHigh tieBars 1 i) →
        ∃ i, IsCandidateHigh tieBars 1 i ∧
          s.swingHigh = projHigh (barAt tieBars i) ∧
          (∀ j, IsCandidateHigh tieBars 1 j →
            (barAt tieBars j).high ≤ (barAt tieBars i).high) ∧
          (∀ j, IsCandidateHigh tieBars 1 j → j < i →
            (barAt tieBars j).high < (barAt tieBars i).high)) ∧
      ((¬ ∃ i, IsCandidateHigh tieBars 1 i) →
        IsFirstMaxHigh tieBars s.swingHigh) ∧
      ((∃ i, IsCandidateLow tieBars 1 i) →
        ∃ i, IsCandidateLow tieBars 1 i ∧
          s.swingLow = projLow (barAt tieBars i) ∧
          (∀ j, IsCandidateLow tieBars 1 j →
            (barAt tieBars i).low ≤ (barAt tieBars j).low) ∧
          (∀ j, IsCandidateLow tieBars 1 j → j < i →
            (barAt tieBars i).low < (barAt tieBars j).low)) ∧
      ((¬ ∃ i, IsCandidateLow tieBars 1 i) →
        IsFirstMinLow tieBars s.swingLow) :=
  C2_rolling_swing_spec tieBars 1 (by decide)

end FibFriend
